import Mathlib

/-!
Verification of the voice-driven state synchronization engine of the
ExecDeck dashboard (src/src/app/page.tsx and the voice-agent hook).

The embedding below translates the state-holding logic of the page
component into explicit state passing:

* `FilterState`, `FilterPatch`, `applyPatch` — the `set_filter` merge
  (page.tsx lines 177-190);
* `filteredData` / `filteredForInsight` — the two record filters
  (page.tsx lines 229-242 and 126-133);
* `computeInsight` — the insight effect (page.tsx lines 93-167); the
  numeric aggregates and the active-dimension label pairs are kept as
  numbers/pairs, their final presentation as display strings
  (`formatCompact`, `toLocaleString`) being pure formatting;
* `dispatch` / `step` / `run` — the action dispatcher
  (`handleAgentAction`), the local clear button (`handleClearFilters`),
  the undo handler (`handleUndo`) and the insight dismissal
  (`dismissInsight`), folded over an event list under the cooperative
  single-event-queue semantics of the app (each handler reads the state
  current when it runs, runs to completion, and the insight effect fires
  on every filters change before the next event).  One fidelity point:
  the dispatcher's undo case is the identity, because the memoized
  `handleAgentAction` (empty dependency array) forever calls the first
  render's `handleUndo`, whose captured history is the initial `[{}]`
  — only the local undo button pops (see `dispatch`);
* `regionPerf` / `regionRanking` — the region rollup and the stable
  descending sort of contextSummary (page.tsx lines 259-270);
* `SyncState` / `syncStep` / `syncRun` — the debounced, deduplicated
  context push: the effect at page.tsx lines 326-333 together with
  `sendDataContext` and the connection events of the hook.  The summary
  payload is an opaque type `α` with a serialization `ser : α → String`
  standing for `JSON.stringify`; time is a `Nat` count of milliseconds
  and a pending `setTimeout` is a deadline, fired when reached before
  the next event (or at the end of the run) and cancelled by the effect
  cleanup. Machine reals in `Math.round((revenue/target)*100)` are
  modelled as exact rational rounding over `Nat` (half rounds up), which
  agrees with the float computation on the integer data at hand.
-/

namespace ExecDeck

/-- The six optional filter dimensions (hook `FilterState`, part_000). -/
structure FilterState where
  region : Option String
  product : Option String
  quarter : Option String
  status : Option String
  rep : Option String
  closeMonth : Option String
deriving DecidableEq, Repr

/-- The canonical empty filter: the initial `useState<FilterState>({})`. -/
def FilterState.empty : FilterState :=
  ⟨none, none, none, none, none, none⟩

/-- The names of the six dimensions, used to quantify over them. -/
inductive Dim where
  | region | product | quarter | status | rep | closeMonth
deriving DecidableEq, Repr

def FilterState.get (f : FilterState) : Dim → Option String
  | .region => f.region
  | .product => f.product
  | .quarter => f.quarter
  | .status => f.status
  | .rep => f.rep
  | .closeMonth => f.closeMonth

/-- A `set_filter` payload restricted to the six recognized keys: `none`
means the key is absent from the payload (`payload.k !== undefined` is
false); `some v` means the key is present with string value `v`.  Keys
of the payload other than these six are never read by the code. -/
structure FilterPatch where
  region : Option String := none
  product : Option String := none
  quarter : Option String := none
  status : Option String := none
  rep : Option String := none
  closeMonth : Option String := none
deriving DecidableEq, Repr

def FilterPatch.get (p : FilterPatch) : Dim → Option String
  | .region => p.region
  | .product => p.product
  | .quarter => p.quarter
  | .status => p.status
  | .rep => p.rep
  | .closeMonth => p.closeMonth

/-- `payload.k as string || undefined`: a falsy (empty) value becomes
`undefined`, i.e. the dimension is cleared. -/
def coerce (v : String) : Option String :=
  if v = "" then none else some v

/-- One dimension of the merge: `if (payload.k !== undefined)
newFilters.k = payload.k as string || undefined`. -/
def mergeDim (old pe : Option String) : Option String :=
  match pe with
  | none => old
  | some v => coerce v

/-- The `set_filter` merge, page.tsx lines 178-190: spread the previous
filters, then overwrite each dimension whose key is present in the
payload. -/
def applyPatch (f : FilterState) (p : FilterPatch) : FilterState where
  region := mergeDim f.region p.region
  product := mergeDim f.product p.product
  quarter := mergeDim f.quarter p.quarter
  status := mergeDim f.status p.status
  rep := mergeDim f.rep p.rep
  closeMonth := mergeDim f.closeMonth p.closeMonth

/-- A sales record (page.tsx `SalesRecord`); revenue, target and deals
are the non-negative integers the generator script produces. -/
structure SalesRecord where
  id : Nat
  region : String
  product : String
  quarter : String
  revenue : Nat
  target : Nat
  status : String
  deals : Nat
  rep : String
  closeDate : String
deriving DecidableEq, Repr

def monthName : Nat → String
  | 1 => "January"
  | 2 => "February"
  | 3 => "March"
  | 4 => "April"
  | 5 => "May"
  | 6 => "June"
  | 7 => "July"
  | 8 => "August"
  | 9 => "September"
  | 10 => "October"
  | 11 => "November"
  | 12 => "December"
  | _ => "Invalid Date"

/-- The month number encoded by the two characters at the `MM` position
of an ISO date (0 when they are not a month). -/
def monthOfChars : List Char → Nat
  | c1 :: c2 :: _ =>
    if c1 = '0' then
      if c2 = '1' then 1 else if c2 = '2' then 2 else if c2 = '3' then 3
      else if c2 = '4' then 4 else if c2 = '5' then 5 else if c2 = '6' then 6
      else if c2 = '7' then 7 else if c2 = '8' then 8 else if c2 = '9' then 9
      else 0
    else if c1 = '1' then
      if c2 = '0' then 10 else if c2 = '1' then 11 else if c2 = '2' then 12
      else 0
    else 0
  | _ => 0

/-- `getMonthFromDate` (page.tsx lines 75-78) on the ISO `YYYY-MM-DD`
strings the data generator emits: the long English month name of the
month field. -/
def getMonthFromDate (s : String) : String :=
  monthName (monthOfChars (s.data.drop 5))

/-- One clause of the filter: `if (filters.k && record.k !== filters.k)
return false` — the constraint applies only when the stored value is
truthy (present and non-empty). -/
def dimOk (o : Option String) (field : String) : Bool :=
  match o with
  | none => true
  | some v => if v = "" then true else field == v

/-- `filteredData` (page.tsx lines 229-242): all six dimensions,
closeMonth compared against the month derived from the close date. -/
def filteredData (f : FilterState) (d : List SalesRecord) : List SalesRecord :=
  d.filter fun r =>
    dimOk f.region r.region && dimOk f.product r.product &&
    dimOk f.quarter r.quarter && dimOk f.status r.status &&
    dimOk f.rep r.rep && dimOk f.closeMonth (getMonthFromDate r.closeDate)

/-- `filteredForInsight` (page.tsx lines 126-133): the insight effect
filters by region, product, quarter, status and rep only — the
closeMonth dimension is not consulted. -/
def filteredForInsight (f : FilterState) (d : List SalesRecord) : List SalesRecord :=
  d.filter fun r =>
    dimOk f.region r.region && dimOk f.product r.product &&
    dimOk f.quarter r.quarter && dimOk f.status r.status &&
    dimOk f.rep r.rep

def sumRevenue (l : List SalesRecord) : Nat :=
  l.foldl (fun s r => s + r.revenue) 0

def sumTarget (l : List SalesRecord) : Nat :=
  l.foldl (fun s r => s + r.target) 0

def sumDeals (l : List SalesRecord) : Nat :=
  l.foldl (fun s r => s + r.deals) 0

/-- `target > 0 ? Math.round((revenue / target) * 100) : 0`, as exact
rational rounding: `(2*100*rev + t) / (2*t)` is `revenue/target*100`
rounded half-up. -/
def roundPct (rev t : Nat) : Nat :=
  if 0 < t then (200 * rev + t) / (2 * t) else 0

/-- `Object.entries(filters).filter(([, v]) => v)` for one entry. -/
def optEntry (k : String) (o : Option String) : List (String × String) :=
  match o with
  | none => []
  | some v => if v = "" then [] else [(k, v)]

/-- The active `dimension: value` pairs of a FilterState (the entries
with a truthy value). -/
def FilterState.activeList (f : FilterState) : List (String × String) :=
  optEntry "region" f.region ++ optEntry "product" f.product ++
  optEntry "quarter" f.quarter ++ optEntry "status" f.status ++
  optEntry "rep" f.rep ++ optEntry "closeMonth" f.closeMonth

/-- The content of the insight annotation: the active-dimension label
pairs joined into the title, and the numeric aggregates the description
string displays (records, deals, performance) plus the revenue shown as
the value. -/
structure InsightData where
  labels : List (String × String)
  revenue : Nat
  records : Nat
  deals : Nat
  perf : Nat
deriving DecidableEq, Repr

/-- The insight effect (page.tsx lines 93-167): null when no dimension
is active, otherwise the aggregates of `filteredForInsight`. -/
def computeInsight (f : FilterState) (d : List SalesRecord) : Option InsightData :=
  if f.activeList = [] then none
  else
    let fi := filteredForInsight f d
    some
      { labels := f.activeList
        revenue := sumRevenue fi
        records := fi.length
        deals := sumDeals fi
        perf := roundPct (sumRevenue fi) (sumTarget fi) }

/-- A transient comparison request (page.tsx line 89). -/
structure Comparison where
  item1 : String
  item2 : String
  ty : String
deriving DecidableEq, Repr

/-- JS truthiness of an optional string payload field. -/
def truthy : Option String → Bool
  | none => false
  | some s => !(s = "")

/-- The mutable state of the page component that the claims concern:
the active filters, the undo history, the insight annotation and the
pending comparison request. -/
structure AppState where
  filters : FilterState
  history : List FilterState
  insight : Option InsightData
  comparison : Option Comparison
deriving DecidableEq, Repr

/-- Initial state: `filters = {}`, `filterHistory = [{}]`, no insight
(the effect's first run sees zero active filters), no comparison. -/
def initState : AppState :=
  ⟨.empty, [.empty], none, none⟩

/-- The structured actions `handleAgentAction` recognizes.  A `compare`
payload carries its three fields as optional strings (absent or
present). -/
inductive Action where
  | set (p : FilterPatch)
  | clear
  | undo
  | compare (item1 item2 ty : Option String)
  | unknown (name : String)
deriving DecidableEq, Repr

/-- `handleUndo` (page.tsx lines 342-349): no-op at history length <= 1,
otherwise pop the last snapshot and activate the new last one (the
`|| {}` fallback is the `getD .empty`); the insight effect then
recomputes from the restored filters. -/
def undoStep (d : List SalesRecord) (s : AppState) : AppState :=
  if s.history.length ≤ 1 then s
  else
    let h2 := s.history.dropLast
    let prev := h2.getLast?.getD .empty
    { s with filters := prev, history := h2, insight := computeInsight prev d }

/-- `handleAgentAction` (page.tsx lines 170-213), with the insight
effect's recomputation folded into each filters change (the effect runs
on every change of `filters` before the next event is processed).

The `undo` case is the identity: `handleAgentAction` is memoized with
an empty dependency array, so it forever calls the first render's
`handleUndo`, whose captured `filterHistory` is the initial `[{}]`;
that call hits the `length <= 1` guard and returns without touching
any state, no matter how long the real history has grown.  Only the
local undo button (`Event.undoButton` below) runs the current render's
`handleUndo` and actually pops. -/
def dispatch (d : List SalesRecord) (s : AppState) : Action → AppState
  | .set p =>
    let nf := applyPatch s.filters p
    { s with filters := nf, history := s.history ++ [nf],
             insight := computeInsight nf d }
  | .clear =>
    { s with filters := .empty, history := s.history ++ [.empty], insight := none }
  | .undo => s
  | .compare i1 i2 ty =>
    if truthy i1 && truthy i2 && truthy ty then
      { s with comparison := some ⟨i1.getD "", i2.getD "", ty.getD ""⟩ }
    else s
  | .unknown _ => s

/-- The events that mutate the page state: a dispatched agent action,
the local clear-filters button (`handleClearFilters`), the local undo
button (`handleUndo`) and the insight dismissal (`dismissInsight`). -/
inductive Event where
  | agent (a : Action)
  | clearButton
  | undoButton
  | dismiss
deriving DecidableEq, Repr

def step (d : List SalesRecord) (s : AppState) : Event → AppState
  | .agent a => dispatch d s a
  | .clearButton =>
    { s with filters := .empty, history := s.history ++ [.empty], insight := none }
  | .undoButton => undoStep d s
  | .dismiss => { s with insight := none }

/-- A session: the events applied in arrival order to the initial
state. -/
def run (d : List SalesRecord) (evs : List Event) : AppState :=
  evs.foldl (step d) initState

/-! ## The sync scheduler (context push effect + sendDataContext) -/

/-- The scheduler's state: the connection flag, `lastContextRef.current`,
the pending `setTimeout` as `(deadline, payload)` (the payload is the
summary captured when the timer was scheduled), and the pushes sent so
far as `(time, payload)` in order. -/
structure SyncState (α : Type) where
  connected : Bool
  lastRef : String
  pending : Option (Nat × α)
  sent : List (Nat × α)
deriving Repr

/-- Let wall-clock time reach `t`: a pending timer whose deadline has
passed fires (the `sendDataContext` call) before the next event is
handled. -/
def advanceTo {α : Type} (st : SyncState α) (t : Nat) : SyncState α :=
  match st.pending with
  | some (dl, p) =>
    if dl ≤ t then { st with pending := none, sent := st.sent ++ [(dl, p)] } else st
  | none => st

/-- The three event sources the effect at page.tsx lines 326-333 reacts
to, each stamped with its arrival time: a recomputation of
contextSummary (carrying the new summary), a disconnect, and a connect
(carrying the summary current at that moment, since the effect re-runs
with it when `isConnected` flips). -/
inductive SyncEvent (α : Type) where
  | change (t : Nat) (s : α)
  | disconnect (t : Nat)
  | connect (t : Nat) (s : α)

/-- One run of the effect.  Re-running it first executes the previous
cleanup (`clearTimeout`), so any pending push is cancelled; then the
body returns early when disconnected or when `JSON.stringify` of the
new summary equals `lastContextRef.current`, and otherwise records the
serialization and schedules the push 500ms out.  A disconnect also runs
the cleanup and then returns early; note it does not touch `lastRef` —
nothing in the code ever resets `lastContextRef`. -/
def syncStep {α : Type} (ser : α → String) (st : SyncState α) :
    SyncEvent α → SyncState α
  | .change t s =>
    let st := advanceTo st t
    if !st.connected then { st with pending := none }
    else if ser s = st.lastRef then { st with pending := none }
    else { st with lastRef := ser s, pending := some (t + 500, s) }
  | .disconnect t =>
    let st := advanceTo st t
    { st with connected := false, pending := none }
  | .connect t s =>
    let st := { advanceTo st t with connected := true }
    if ser s = st.lastRef then { st with pending := none }
    else { st with lastRef := ser s, pending := some (t + 500, s) }

/-- After the last event, a still-pending timer eventually fires. -/
def flushPending {α : Type} (st : SyncState α) : SyncState α :=
  match st.pending with
  | some (dl, p) => { st with pending := none, sent := st.sent ++ [(dl, p)] }
  | none => st

def syncRun {α : Type} (ser : α → String) (st0 : SyncState α)
    (evs : List (SyncEvent α)) : SyncState α :=
  flushPending (evs.foldl (syncStep ser) st0)

/-- Page load: disconnected, `lastContextRef` initialized to the empty
string, nothing scheduled, nothing sent. -/
def syncInit {α : Type} : SyncState α :=
  ⟨false, "", none, []⟩

/-! ## Region ranking (contextSummary, page.tsx lines 259-270) -/

/-- One region's rollup in `regionPerf`. -/
structure RegionAgg where
  region : String
  revenue : Nat
  target : Nat
deriving DecidableEq, Repr

/-- One `forEach` step building `regionPerf`: add into the existing
entry, or append a new key at the end — string keys of a JS object keep
insertion (encounter) order. -/
def upsert : List RegionAgg → SalesRecord → List RegionAgg
  | [], r => [⟨r.region, r.revenue, r.target⟩]
  | a :: rest, r =>
    if a.region = r.region then
      ⟨a.region, a.revenue + r.revenue, a.target + r.target⟩ :: rest
    else a :: upsert rest r

/-- `regionPerf` as `Object.entries` would list it: per-region revenue
and target totals, regions in encounter order. -/
def regionPerf (l : List SalesRecord) : List RegionAgg :=
  l.foldl upsert []

/-- One entry of `regionRanking` before sorting. -/
structure RegionRank where
  region : String
  perf : Nat
  revenue : Nat
  target : Nat
deriving DecidableEq, Repr

def toRank (a : RegionAgg) : RegionRank :=
  ⟨a.region, roundPct a.revenue a.target, a.revenue, a.target⟩

/-- Insert into a descending-sorted list, before the first entry of
equal-or-lower perf: the stable placement `.sort((a, b) => b.perf -
a.perf)` gives (an element keeps its place relative to equal keys). -/
def insertRank (x : RegionRank) : List RegionRank → List RegionRank
  | [] => [x]
  | y :: ys => if y.perf ≤ x.perf then x :: y :: ys else y :: insertRank x ys

/-- Stable descending insertion sort by perf. -/
def sortRanks : List RegionRank → List RegionRank
  | [] => []
  | x :: xs => insertRank x (sortRanks xs)

/-- `regionRanking`: per-region performance percentages, stably sorted
descending. -/
def regionRanking (l : List SalesRecord) : List RegionRank :=
  sortRanks ((regionPerf l).map toRank)

/-- `bestRegion = regionRanking[0]`. -/
def bestRegion (l : List SalesRecord) : Option RegionRank :=
  (regionRanking l).head?

/-- `worstRegion = regionRanking[regionRanking.length - 1]`. -/
def worstRegion (l : List SalesRecord) : Option RegionRank :=
  (regionRanking l).getLast?

/-! ## Concrete data used by witnesses and counterexamples -/

/-- The history invariant of C1: non-empty, empty filter first, the
active filters last. -/
def HistInv (s : AppState) : Prop :=
  s.history ≠ [] ∧ s.history.head? = some FilterState.empty ∧
    s.history.getLast? = some s.filters

/-- The concrete two-entry history used by the C3 witness. -/
def undoDemoState : AppState :=
  ⟨⟨some "US-East", none, none, none, none, none⟩,
   [FilterState.empty, ⟨some "US-East", none, none, none, none, none⟩],
   none, none⟩

def demoPatch : FilterPatch := { region := some "US-East" }

/-- The concrete run refuting C5: connect with summary "A" (pushed at
500ms), disconnect at 1000ms, reconnect at 2000ms with the identically
serializing summary "A". -/
def reconnectTrace : List (SyncEvent String) :=
  [.connect 0 "A", .disconnect 1000, .connect 2000 "A"]

/-- The three-record dataset of the spec's numerical scenario. -/
def dataset3 : List SalesRecord :=
  [⟨1, "US-East", "Cloud Platform", "Q1", 100, 80, "Good", 1, "Sarah Chen", "2026-01-15"⟩,
   ⟨2, "US-East", "Cloud Platform", "Q1", 50, 100, "Good", 1, "Sarah Chen", "2026-02-15"⟩,
   ⟨3, "US-West", "Cloud Platform", "Q1", 10, 50, "Good", 1, "Alex Thompson", "2026-03-15"⟩]

/-- The two-record dataset and January filter of the C10 witness. -/
def monthDemoData : List SalesRecord :=
  [⟨1, "US-East", "P", "Q1", 100, 80, "Good", 1, "A", "2026-01-10"⟩,
   ⟨2, "US-East", "P", "Q1", 50, 100, "Good", 1, "A", "2026-02-10"⟩]

def monthDemoFilter : FilterState :=
  ⟨none, none, none, none, none, some "January"⟩

/-! ## Helper lemmas -/

theorem head?_concat_of_ne_nil {α : Type} {l : List α} (x : α) (h : l ≠ []) :
    (l ++ [x]).head? = l.head? := by
  cases l with
  | nil => exact absurd rfl h
  | cons a t => simp

theorem head?_dropLast_of_one_lt {α : Type} {l : List α} (h : 1 < l.length) :
    l.dropLast.head? = l.head? := by
  match l, h with
  | a :: b :: t, _ => simp [List.dropLast]

theorem dropLast_ne_nil_of_one_lt {α : Type} {l : List α} (h : 1 < l.length) :
    l.dropLast ≠ [] := by
  intro hnil
  have hlen := congrArg List.length hnil
  simp [List.length_dropLast] at hlen
  omega

theorem getLast?_getD_of_ne_nil {α : Type} {l : List α} (x : α) (h : l ≠ []) :
    l.getLast? = some (l.getLast?.getD x) := by
  rw [List.getLast?_eq_getLast l h]
  rfl

theorem histInv_init : HistInv initState := by
  refine ⟨by simp [initState], ?_, ?_⟩ <;> simp [initState]

theorem histInv_push {s : AppState} (hs : HistInv s) (nf : FilterState)
    (ins : Option InsightData) (cmp : Option Comparison) :
    HistInv { s with filters := nf, history := s.history ++ [nf],
                     insight := ins, comparison := cmp } := by
  obtain ⟨hne, hhd, _⟩ := hs
  refine ⟨by simp, ?_, ?_⟩
  · rw [head?_concat_of_ne_nil _ hne]; exact hhd
  · exact List.getLast?_concat s.history

theorem histInv_undoStep {d : List SalesRecord} {s : AppState} (hs : HistInv s) :
    HistInv (undoStep d s) := by
  obtain ⟨hne, hhd, hlast⟩ := hs
  unfold undoStep
  by_cases hlen : s.history.length ≤ 1
  · simp only [hlen, if_true]; exact ⟨hne, hhd, hlast⟩
  · have hlt : 1 < s.history.length := by omega
    have h2ne : s.history.dropLast ≠ [] := dropLast_ne_nil_of_one_lt hlt
    simp only [hlen, if_false]
    exact ⟨h2ne, by rw [head?_dropLast_of_one_lt hlt]; exact hhd,
      getLast?_getD_of_ne_nil FilterState.empty h2ne⟩

theorem histInv_step {d : List SalesRecord} {s : AppState} (hs : HistInv s)
    (e : Event) : HistInv (step d s e) := by
  obtain ⟨hne, hhd, hlast⟩ := hs
  cases e with
  | agent a =>
    cases a with
    | set p => exact histInv_push ⟨hne, hhd, hlast⟩ _ _ _
    | clear => exact histInv_push ⟨hne, hhd, hlast⟩ _ _ _
    | undo => exact ⟨hne, hhd, hlast⟩
    | compare i1 i2 ty =>
      simp only [step, dispatch]
      by_cases hc : (truthy i1 && truthy i2 && truthy ty) = true
      · simp only [hc, if_true]; exact ⟨hne, hhd, hlast⟩
      · simp only [hc, if_false]; exact ⟨hne, hhd, hlast⟩
    | unknown n => exact ⟨hne, hhd, hlast⟩
  | clearButton => exact histInv_push ⟨hne, hhd, hlast⟩ _ _ _
  | undoButton => exact histInv_undoStep ⟨hne, hhd, hlast⟩
  | dismiss => exact ⟨hne, hhd, hlast⟩

theorem histInv_foldl {d : List SalesRecord} {s : AppState} (hs : HistInv s)
    (evs : List Event) : HistInv (evs.foldl (step d) s) := by
  induction evs generalizing s with
  | nil => exact hs
  | cons e rest ih => exact ih (histInv_step hs e)

/-! ## C1 -/

/-- C1: in every state reachable from the initial single-entry history
by dispatched actions (set_filter, clear_filters, undo, compare,
unknown), the local clear and undo buttons and the insight dismissal,
the history is non-empty, its first entry is the empty FilterState, and
its last entry is the currently active FilterState. -/
theorem c1_history_invariant (d : List SalesRecord) (evs : List Event) :
    (run d evs).history ≠ [] ∧
    (run d evs).history.head? = some FilterState.empty ∧
    (run d evs).history.getLast? = some (run d evs).filters :=
  histInv_foldl histInv_init evs

/-! ## C2 -/

theorem mergeDim_cases (o pe : Option String) :
    mergeDim o pe =
      match pe with
      | none => o
      | some v => if v = "" then none else some v := by
  cases pe <;> rfl

/-- C2: for every FilterState and set_filter patch, a dimension whose
key is absent from the patch keeps its value; a dimension whose key is
present is set to the patch value when that value is a non-empty
string, and cleared when the value is empty/falsy.  The rule is the
same for every dimension and every string value — no validation. -/
theorem c2_set_filter_merge (f : FilterState) (p : FilterPatch) (q : Dim) :
    (applyPatch f p).get q =
      match p.get q with
      | none => f.get q
      | some v => if v = "" then none else some v := by
  cases q <;> exact mergeDim_cases _ _

/-! ## C3 -/

/-- C3 (the code's actual behavior at the failing input): a dispatched
undo leaves the state unchanged in EVERY state — including at history
length > 1, where the claim and the spec (and the app's own voice
cheatsheet advertising the "Go back" / "Undo" voice command) say it
pops — because `handleAgentAction`'s frozen closure always runs the
first render's `handleUndo` against the initial one-entry history.
The intended pop lives only on the local undo button path: there,
length <= 1 is a no-op and length > 1 pops the last entry and makes
the new last entry the active FilterState. -/
theorem c3_dispatched_undo_noop (d : List SalesRecord) (s : AppState) :
    step d s (.agent .undo) = s ∧
    (1 < s.history.length →
      (step d s .undoButton).history = s.history.dropLast ∧
      (step d s .undoButton).filters =
        s.history.dropLast.getLast?.getD FilterState.empty ∧
      (step d s .undoButton).history.getLast? =
        some (step d s .undoButton).filters) ∧
    (s.history.length ≤ 1 → step d s .undoButton = s) := by
  refine ⟨rfl, ?_, ?_⟩
  · intro hlt
    have hle : ¬ s.history.length ≤ 1 := by omega
    have h2ne : s.history.dropLast ≠ [] := dropLast_ne_nil_of_one_lt hlt
    simp only [step, undoStep, hle, if_false]
    exact ⟨trivial, trivial, getLast?_getD_of_ne_nil FilterState.empty h2ne⟩
  · intro hle
    simp only [step, undoStep, hle, if_true]

/-- Witness for C3: on a concrete two-entry history the dispatched undo
changes nothing even though the stack length is 2, while the undo
button pops it back to the single empty entry. -/
theorem c3_dispatched_undo_noop_witness :
    step [] undoDemoState (.agent .undo) = undoDemoState ∧
    (step [] undoDemoState .undoButton).history =
      undoDemoState.history.dropLast :=
  ⟨(c3_dispatched_undo_noop [] undoDemoState).1,
   ((c3_dispatched_undo_noop [] undoDemoState).2.1 (by decide)).1⟩

/-! ## C9 -/

/-- C9: a compare action never changes the FilterState, the history or
the insight; when any of the three payload fields is missing no
comparison request is created (the comparison slot is untouched); when
all three are present and non-empty the comparison request with the
three values is created. -/
theorem c9_compare_action (d : List SalesRecord) (s : AppState)
    (i1 i2 ty : Option String) :
    (step d s (.agent (.compare i1 i2 ty))).filters = s.filters ∧
    (step d s (.agent (.compare i1 i2 ty))).history = s.history ∧
    (step d s (.agent (.compare i1 i2 ty))).insight = s.insight ∧
    ((i1 = none ∨ i2 = none ∨ ty = none) →
      (step d s (.agent (.compare i1 i2 ty))).comparison = s.comparison) ∧
    (truthy i1 = true → truthy i2 = true → truthy ty = true →
      (step d s (.agent (.compare i1 i2 ty))).comparison =
        some ⟨i1.getD "", i2.getD "", ty.getD ""⟩) := by
  simp only [step, dispatch]
  split
  next hc =>
    refine ⟨rfl, rfl, rfl, ?_, fun _ _ _ => rfl⟩
    intro hmiss
    rcases hmiss with h | h | h <;> subst h <;> simp [truthy] at hc
  next hc =>
    exact ⟨rfl, rfl, rfl, fun _ => rfl, fun h1 h2 h3 => by
      simp [h1, h2, h3] at hc⟩

/-! ## C6 -/

theorem computeInsight_none_iff (f : FilterState) (d : List SalesRecord) :
    computeInsight f d = none ↔ f.activeList = [] := by
  unfold computeInsight
  by_cases h : f.activeList = [] <;> simp [h]

theorem computeInsight_empty (d : List SalesRecord) :
    computeInsight FilterState.empty d = none :=
  (computeInsight_none_iff _ d).mpr rfl

/-- Every filters change re-runs the insight effect, so along any
dismiss-free event sequence the insight field stays the recomputation
from the current filters. -/
theorem insight_recomputed_foldl (d : List SalesRecord) (evs : List Event)
    (hnd : ∀ e ∈ evs, e ≠ Event.dismiss) (s : AppState)
    (hs : s.insight = computeInsight s.filters d) :
    (evs.foldl (step d) s).insight =
      computeInsight (evs.foldl (step d) s).filters d := by
  induction evs generalizing s with
  | nil => exact hs
  | cons e rest ih =>
    refine ih (fun x hx => hnd x (List.mem_cons_of_mem e hx)) _ ?_
    cases e with
    | agent a =>
      cases a with
      | set p => rfl
      | clear => exact (computeInsight_empty d).symm
      | undo => exact hs
      | compare i1 i2 ty =>
        simp only [step, dispatch]
        split <;> exact hs
      | unknown n => exact hs
    | clearButton => exact (computeInsight_empty d).symm
    | undoButton =>
      simp only [step]
      unfold undoStep
      by_cases hlen : s.history.length ≤ 1
      · rw [if_pos hlen]; exact hs
      · rw [if_neg hlen]
    | dismiss => exact absurd rfl (hnd .dismiss (List.mem_cons_self _ _))

/-- Even with dismissals, the insight is always either null or the
recomputation from the current filters. -/
theorem insight_weak_foldl (d : List SalesRecord) (evs : List Event)
    (s : AppState)
    (hs : s.insight = none ∨ s.insight = computeInsight s.filters d) :
    (evs.foldl (step d) s).insight = none ∨
      (evs.foldl (step d) s).insight =
        computeInsight (evs.foldl (step d) s).filters d := by
  induction evs generalizing s with
  | nil => exact hs
  | cons e rest ih =>
    refine ih _ ?_
    cases e with
    | agent a =>
      cases a with
      | set p => exact Or.inr rfl
      | clear => exact Or.inl rfl
      | undo => exact hs
      | compare i1 i2 ty =>
        simp only [step, dispatch]
        split <;> exact hs
      | unknown n => exact hs
    | clearButton => exact Or.inl rfl
    | undoButton =>
      simp only [step]
      unfold undoStep
      by_cases hlen : s.history.length ≤ 1
      · rw [if_pos hlen]; exact hs
      · rw [if_neg hlen]; exact Or.inr rfl
    | dismiss => exact Or.inl rfl

/-- Counterexample for C6 as stated: after set_filter of region
"US-East" followed by the insight dismissal, the insight is null while
the FilterState has one active dimension, so the claimed iff fails in a
reachable state. -/
theorem c6_counterexample :
    (run [] [.agent (.set demoPatch), .dismiss]).insight = none ∧
    (run [] [.agent (.set demoPatch), .dismiss]).filters.activeList ≠ [] := by
  decide

/-- C6 amended: along every event sequence free of the local insight
dismissal, the insight is null iff the FilterState has zero active
dimensions; and in every reachable state (dismissals included) zero
active dimensions still forces a null insight.  The dismissal breaks
only the other direction, nulling the insight while dimensions stay
active. -/
theorem c6_insight_null_amended (d : List SalesRecord) (evs : List Event) :
    ((∀ e ∈ evs, e ≠ Event.dismiss) →
      ((run d evs).insight = none ↔ (run d evs).filters.activeList = [])) ∧
    ((run d evs).filters.activeList = [] → (run d evs).insight = none) := by
  constructor
  · intro hnd
    have h := insight_recomputed_foldl d evs hnd initState rfl
    rw [show (run d evs) = evs.foldl (step d) initState from rfl, h]
    exact computeInsight_none_iff _ d
  · intro hact
    have h := insight_weak_foldl d evs initState (Or.inl rfl)
    rcases h with h | h
    · exact h
    · rw [show (run d evs) = evs.foldl (step d) initState from rfl] at hact ⊢
      rw [h]
      exact (computeInsight_none_iff _ d).mpr hact

/-- Witness for C6 amended: a dismiss-free run with one active
dimension has a non-null insight, and a run ending in clear_filters has
a null insight. -/
theorem c6_insight_null_amended_witness :
    ((run [] [.agent (.set demoPatch)]).insight = none ↔
      (run [] [.agent (.set demoPatch)]).filters.activeList = []) ∧
    (run [] [.agent (.set demoPatch), .agent .clear]).insight = none :=
  ⟨(c6_insight_null_amended [] [.agent (.set demoPatch)]).1 (by decide),
   (c6_insight_null_amended [] [.agent (.set demoPatch), .agent .clear]).2 (by decide)⟩

/-! ## C4 and C5 -/

theorem advanceTo_lastRef {α : Type} (st : SyncState α) (t : Nat) :
    (advanceTo st t).lastRef = st.lastRef := by
  unfold advanceTo
  rcases hp : st.pending with _ | ⟨dl, p⟩
  · rfl
  · by_cases h : dl ≤ t <;> simp [h]

theorem advanceTo_connected {α : Type} (st : SyncState α) (t : Nat) :
    (advanceTo st t).connected = st.connected := by
  unfold advanceTo
  rcases hp : st.pending with _ | ⟨dl, p⟩
  · rfl
  · by_cases h : dl ≤ t <;> simp [h]

theorem advanceTo_of_pending_none {α : Type} (c : Bool) (r : String)
    (se : List (Nat × α)) (t : Nat) :
    advanceTo ⟨c, r, none, se⟩ t = ⟨c, r, none, se⟩ :=
  rfl

/-- C4: while connected, three summary changes each arriving within
500ms of the previous one and each serializing differently from the
recorded baseline produce exactly one outbound push, at 500ms after the
last change and carrying the last summary only; and any recomputation
whose serialization equals the recorded baseline sends nothing and
leaves nothing scheduled. -/
theorem c4_debounce {α : Type} (ser : α → String) (r : String)
    (t1 t2 t3 : Nat) (s1 s2 s3 : α)
    (h12 : t2 < t1 + 500) (h23 : t3 < t2 + 500)
    (hn1 : ser s1 ≠ r) (hn2 : ser s2 ≠ ser s1) (hn3 : ser s3 ≠ ser s2) :
    (syncRun ser ⟨true, r, none, []⟩
      [.change t1 s1, .change t2 s2, .change t3 s3]).sent = [(t3 + 500, s3)] ∧
    (∀ (st : SyncState α) (t : Nat) (s : α), ser s = st.lastRef →
      (syncStep ser st (.change t s)).sent = (advanceTo st t).sent ∧
      (syncStep ser st (.change t s)).pending = none) := by
  constructor
  · have e1 : syncStep ser ⟨true, r, none, []⟩ (.change t1 s1) =
        ⟨true, ser s1, some (t1 + 500, s1), []⟩ := by
      simp [syncStep, advanceTo, hn1]
    have e2 : syncStep ser ⟨true, ser s1, some (t1 + 500, s1), []⟩ (.change t2 s2) =
        ⟨true, ser s2, some (t2 + 500, s2), []⟩ := by
      have hno : ¬ (t1 + 500 ≤ t2) := by omega
      simp [syncStep, advanceTo, hno, hn2]
    have e3 : syncStep ser ⟨true, ser s2, some (t2 + 500, s2), []⟩ (.change t3 s3) =
        ⟨true, ser s3, some (t3 + 500, s3), []⟩ := by
      have hno : ¬ (t2 + 500 ≤ t3) := by omega
      simp [syncStep, advanceTo, hno, hn3]
    simp only [syncRun, List.foldl, e1, e2, e3]
    rfl
  · intro st t s hsame
    have hl : (advanceTo st t).lastRef = st.lastRef := advanceTo_lastRef st t
    rcases hb : (advanceTo st t).connected with _ | _ <;>
      simp [syncStep, hb, hl, hsame]

/-- Witness for C4: a concrete three-change burst at times 0, 100, 200
yields the single push (700, "c"). -/
theorem c4_debounce_witness :
    (syncRun (fun s : String => s) ⟨true, "", none, []⟩
      [.change 0 "a", .change 100 "b", .change 200 "c"]).sent = [(700, "c")] ∧
    (∀ (st : SyncState String) (t : Nat) (s : String),
      (fun s : String => s) s = st.lastRef →
      (syncStep (fun s : String => s) st (.change t s)).sent = (advanceTo st t).sent ∧
      (syncStep (fun s : String => s) st (.change t s)).pending = none) :=
  c4_debounce (fun s : String => s) "" 0 100 200 "a" "b" "c"
    (by decide) (by decide) (by decide) (by decide) (by decide)

/-- Counterexample for C5 as stated: over `reconnectTrace` the only
push ever sent is the one at 500ms, before the disconnect — the first
recomputed summary after the reconnect at 2000ms serializes equal to
the retained baseline and is skipped, not pushed; the baseline
`lastContextRef` still holds "A" because nothing ever clears it. -/
theorem c5_counterexample :
    (syncRun (fun s : String => s) syncInit reconnectTrace).sent = [(500, "A")] ∧
    (syncRun (fun s : String => s) syncInit reconnectTrace).lastRef = "A" := by
  decide

/-- C5 amended: a disconnect cancels any pending push but does NOT
clear the last-pushed serialization baseline; after a reconnect, a
summary serializing identically to the retained baseline is skipped
(nothing is sent or scheduled), and only a summary with a different
serialization gets a push scheduled. -/
theorem c5_baseline_retained {α : Type} (ser : α → String) (st : SyncState α)
    (t t2 : Nat) (s : α) :
    (syncStep ser st (.disconnect t)).lastRef = st.lastRef ∧
    (syncStep ser st (.disconnect t)).pending = none ∧
    (ser s = st.lastRef →
      (syncStep ser (syncStep ser st (.disconnect t)) (.connect t2 s)).pending = none ∧
      (syncStep ser (syncStep ser st (.disconnect t)) (.connect t2 s)).sent =
        (syncStep ser st (.disconnect t)).sent) ∧
    (ser s ≠ st.lastRef →
      (syncStep ser (syncStep ser st (.disconnect t)) (.connect t2 s)).pending =
        some (t2 + 500, s)) := by
  have hd : syncStep ser st (.disconnect t) =
      { advanceTo st t with connected := false, pending := none } := rfl
  have hl : (advanceTo st t).lastRef = st.lastRef := advanceTo_lastRef st t
  refine ⟨by rw [hd]; exact hl, by rw [hd], ?_, ?_⟩
  · intro hsame
    rw [hd]
    simp [syncStep, advanceTo_of_pending_none, hl, hsame]
  · intro hdiff
    rw [hd]
    simp [syncStep, advanceTo_of_pending_none, hl, hdiff]

/-- Witness for C5 amended: after a disconnect at time 0 from a state
whose baseline is "A", reconnecting at time 100 with summary "A"
schedules nothing, while reconnecting with summary "B" schedules a push
at 600. -/
theorem c5_baseline_retained_witness :
    (syncStep (fun s : String => s) ⟨true, "A", none, [(0, "A")]⟩ (.disconnect 0)).lastRef
      = (⟨true, "A", none, [(0, "A")]⟩ : SyncState String).lastRef ∧
    (syncStep (fun s : String => s) ⟨true, "A", none, [(0, "A")]⟩ (.disconnect 0)).pending
      = none ∧
    (syncStep (fun s : String => s)
      (syncStep (fun s : String => s) ⟨true, "A", none, [(0, "A")]⟩ (.disconnect 0))
      (.connect 100 "A")).pending = none ∧
    (syncStep (fun s : String => s)
      (syncStep (fun s : String => s) ⟨true, "B", none, [(0, "B")]⟩ (.disconnect 0))
      (.connect 100 "A")).pending = some (600, "A") := by
  refine ⟨(c5_baseline_retained _ _ 0 100 "A").1,
    (c5_baseline_retained _ _ 0 100 "A").2.1,
    ((c5_baseline_retained (fun s : String => s) ⟨true, "A", none, [(0, "A")]⟩ 0 100 "A").2.2.1
      (by decide)).1,
    (c5_baseline_retained (fun s : String => s) ⟨true, "B", none, [(0, "B")]⟩ 0 100 "A").2.2.2
      (by decide)⟩

/-! ## C7 -/

theorem mem_insertRank {x a : RegionRank} : ∀ {l : List RegionRank},
    a ∈ insertRank x l ↔ a = x ∨ a ∈ l := by
  intro l
  induction l with
  | nil => simp [insertRank]
  | cons y ys ih =>
    unfold insertRank
    split
    · simp
    · simp only [List.mem_cons, ih]
      tauto

theorem pairwise_insertRank {x : RegionRank} : ∀ {l : List RegionRank},
    l.Pairwise (fun a b => b.perf ≤ a.perf) →
    (insertRank x l).Pairwise (fun a b => b.perf ≤ a.perf) := by
  intro l
  induction l with
  | nil => intro _; simp [insertRank]
  | cons y ys ih =>
    intro h
    rw [List.pairwise_cons] at h
    obtain ⟨hy, hys⟩ := h
    unfold insertRank
    split
    next hle =>
      rw [List.pairwise_cons]
      refine ⟨?_, List.pairwise_cons.mpr ⟨hy, hys⟩⟩
      intro b hb
      rcases List.mem_cons.mp hb with hb | hb
      · exact hb ▸ hle
      · exact le_trans (hy b hb) hle
    next hgt =>
      rw [List.pairwise_cons]
      refine ⟨?_, ih hys⟩
      intro b hb
      rcases mem_insertRank.mp hb with hb | hb
      · exact hb ▸ le_of_lt (lt_of_not_le hgt)
      · exact hy b hb

theorem sorted_sortRanks : ∀ (l : List RegionRank),
    (sortRanks l).Pairwise (fun a b => b.perf ≤ a.perf) := by
  intro l
  induction l with
  | nil => simp [sortRanks]
  | cons x xs ih => exact pairwise_insertRank ih

theorem filter_insertRank_eq {x : RegionRank} {k : Nat} (hx : x.perf = k) :
    ∀ (l : List RegionRank),
    (insertRank x l).filter (fun z => z.perf == k) =
      x :: l.filter (fun z => z.perf == k) := by
  intro l
  induction l with
  | nil => simp [insertRank, List.filter, hx]
  | cons y ys ih =>
    unfold insertRank
    split
    next hle => simp [List.filter, hx]
    next hgt =>
      have hyk : (y.perf == k) = false := by
        have : k < y.perf := hx ▸ lt_of_not_le hgt
        simp [Nat.ne_of_gt this]
      simp only [List.filter, hyk, ih]

theorem filter_insertRank_ne {x : RegionRank} {k : Nat} (hx : x.perf ≠ k) :
    ∀ (l : List RegionRank),
    (insertRank x l).filter (fun z => z.perf == k) =
      l.filter (fun z => z.perf == k) := by
  have hxf : (x.perf == k) = false := by simp [hx]
  intro l
  induction l with
  | nil => simp [insertRank, List.filter, hxf]
  | cons y ys ih =>
    unfold insertRank
    split
    next hle => simp [List.filter, hxf]
    next hgt => simp only [List.filter, ih]

theorem filter_sortRanks (k : Nat) : ∀ (l : List RegionRank),
    (sortRanks l).filter (fun z => z.perf == k) =
      l.filter (fun z => z.perf == k) := by
  intro l
  induction l with
  | nil => rfl
  | cons x xs ih =>
    show (insertRank x (sortRanks xs)).filter (fun z => z.perf == k) = _
    by_cases hx : x.perf = k
    · rw [filter_insertRank_eq hx, ih]
      simp [List.filter, hx]
    · rw [filter_insertRank_ne hx, ih]
      have : (x.perf == k) = false := by simp [hx]
      simp [List.filter, this]

theorem upsert_ne_nil (acc : List RegionAgg) (r : SalesRecord) :
    upsert acc r ≠ [] := by
  cases acc with
  | nil => simp [upsert]
  | cons a rest => unfold upsert; split <;> simp

theorem foldl_upsert_ne_nil : ∀ (l : List SalesRecord) (acc : List RegionAgg),
    acc ≠ [] → l.foldl upsert acc ≠ [] := by
  intro l
  induction l with
  | nil => intro acc h; exact h
  | cons r rest ih => intro acc _; exact ih (upsert acc r) (upsert_ne_nil acc r)

theorem regionPerf_ne_nil {l : List SalesRecord} (h : l ≠ []) :
    regionPerf l ≠ [] := by
  cases l with
  | nil => exact absurd rfl h
  | cons r rest =>
    show (rest.foldl upsert (upsert [] r)) ≠ []
    exact foldl_upsert_ne_nil rest _ (upsert_ne_nil [] r)

theorem foldl_upsert_single {c : String} : ∀ (l : List SalesRecord),
    (∀ r ∈ l, r.region = c) → ∀ (acc : List RegionAgg),
    (acc = [] ∨ ∃ rev t, acc = [⟨c, rev, t⟩]) →
    (l.foldl upsert acc = [] ∨ ∃ rev t, l.foldl upsert acc = [⟨c, rev, t⟩]) := by
  intro l
  induction l with
  | nil => intro _ acc hacc; exact hacc
  | cons r rest ih =>
    intro hall acc hacc
    have hr : r.region = c := hall r (List.mem_cons_self _ _)
    refine ih (fun x hx => hall x (List.mem_cons_of_mem r hx)) (upsert acc r) ?_
    rcases hacc with hacc | ⟨rev, t, hacc⟩
    · subst hacc
      exact Or.inr ⟨r.revenue, r.target, by simp [upsert, hr]⟩
    · subst hacc
      refine Or.inr ⟨rev + r.revenue, t + r.target, ?_⟩
      simp [upsert, hr]

/-- C7: the region ranking is descending in perf; entries of any given
perf value keep exactly the encounter order of the per-region rollup
(stability); best is the first and worst the last entry of the ranking;
and over a non-empty record set spanning a single region, best and
worst coincide and exist. -/
theorem c7_region_ranking (l : List SalesRecord) :
    (regionRanking l).Pairwise (fun a b => b.perf ≤ a.perf) ∧
    (∀ k : Nat, (regionRanking l).filter (fun z => z.perf == k) =
      ((regionPerf l).map toRank).filter (fun z => z.perf == k)) ∧
    bestRegion l = (regionRanking l).head? ∧
    worstRegion l = (regionRanking l).getLast? ∧
    (∀ c : String, l ≠ [] → (∀ r ∈ l, r.region = c) →
      bestRegion l = worstRegion l ∧ bestRegion l ≠ none) := by
  refine ⟨sorted_sortRanks _, fun k => filter_sortRanks k _, rfl, rfl, ?_⟩
  intro c hne hall
  have hsingle := foldl_upsert_single l hall [] (Or.inl rfl)
  rcases hsingle with hnil | ⟨rev, t, hone⟩
  · exact absurd hnil (regionPerf_ne_nil hne)
  · have : regionRanking l = [toRank ⟨c, rev, t⟩] := by
      unfold regionRanking
      rw [show regionPerf l = [⟨c, rev, t⟩] from hone]
      rfl
    unfold bestRegion worstRegion
    rw [this]
    exact ⟨rfl, by simp⟩

/-- Witness for C7: on the three-record demo data the ranking is
descending, and on a two-record single-region set best equals worst. -/
theorem c7_region_ranking_witness :
    (regionRanking [⟨1, "US-East", "P", "Q1", 100, 80, "G", 1, "A", "2026-01-10"⟩,
                    ⟨3, "US-West", "P", "Q1", 10, 50, "G", 1, "B", "2026-03-10"⟩]).Pairwise
      (fun a b => b.perf ≤ a.perf) ∧
    (bestRegion [⟨1, "US-East", "P", "Q1", 100, 80, "G", 1, "A", "2026-01-10"⟩,
                 ⟨2, "US-East", "P", "Q1", 50, 100, "G", 1, "A", "2026-02-10"⟩] =
      worstRegion [⟨1, "US-East", "P", "Q1", 100, 80, "G", 1, "A", "2026-01-10"⟩,
                   ⟨2, "US-East", "P", "Q1", 50, 100, "G", 1, "A", "2026-02-10"⟩]) :=
  ⟨(c7_region_ranking _).1,
   ((c7_region_ranking _).2.2.2.2 "US-East" (by decide) (by decide)).1⟩

/-! ## C8 -/

/-- C8: the performance percentage is the rounded revenue/target ratio,
defined as 0 when the total target is 0 and never negative; and on the
three-record dataset, dispatching set_filter of region "US-East" leaves
2 filtered records with revenue 150, target 180 and performance 83. -/
theorem c8_performance :
    (∀ l : List SalesRecord, sumTarget l = 0 →
      roundPct (sumRevenue l) (sumTarget l) = 0) ∧
    (∀ l : List SalesRecord, 0 ≤ roundPct (sumRevenue l) (sumTarget l)) ∧
    (filteredData (run dataset3 [.agent (.set demoPatch)]).filters dataset3).length = 2 ∧
    sumRevenue (filteredData (run dataset3 [.agent (.set demoPatch)]).filters dataset3) = 150 ∧
    sumTarget (filteredData (run dataset3 [.agent (.set demoPatch)]).filters dataset3) = 180 ∧
    roundPct
      (sumRevenue (filteredData (run dataset3 [.agent (.set demoPatch)]).filters dataset3))
      (sumTarget (filteredData (run dataset3 [.agent (.set demoPatch)]).filters dataset3))
      = 83 := by
  refine ⟨?_, fun l => Nat.zero_le _, by decide, by decide, by decide, by decide⟩
  intro l h
  simp [roundPct, h]

/-- Witness for C8's zero-target clause: the empty record set has
target 0 and performance 0. -/
theorem c8_performance_witness :
    roundPct (sumRevenue []) (sumTarget []) = 0 :=
  c8_performance.1 [] rfl

/-! ## C10 -/

theorem foldl_add_shift (g : SalesRecord → Nat) : ∀ (l : List SalesRecord) (n : Nat),
    l.foldl (fun s r => s + g r) n = n + l.foldl (fun s r => s + g r) 0 := by
  intro l
  induction l with
  | nil => intro n; simp
  | cons r rest ih =>
    intro n
    show rest.foldl _ (n + g r) = n + rest.foldl _ (0 + g r)
    rw [ih (n + g r), ih (0 + g r)]
    omega

theorem sumRevenue_cons (r : SalesRecord) (l : List SalesRecord) :
    sumRevenue (r :: l) = r.revenue + sumRevenue l := by
  show l.foldl _ (0 + r.revenue) = _
  rw [foldl_add_shift (fun x => x.revenue) l (0 + r.revenue)]
  unfold sumRevenue
  omega

theorem sumRevenue_filter_add (p : SalesRecord → Bool) : ∀ (l : List SalesRecord),
    sumRevenue (l.filter p) + sumRevenue (l.filter (fun r => !(p r))) = sumRevenue l := by
  intro l
  induction l with
  | nil => rfl
  | cons r rest ih =>
    rcases hp : p r with _ | _ <;>
      simp [List.filter_cons, hp, sumRevenue_cons] <;> omega

theorem le_sumRevenue_of_mem {x : SalesRecord} : ∀ {l : List SalesRecord},
    x ∈ l → x.revenue ≤ sumRevenue l := by
  intro l
  induction l with
  | nil => intro h; cases h
  | cons y ys ih =>
    intro h
    rw [sumRevenue_cons]
    rcases List.mem_cons.mp h with h | h
    · subst h; omega
    · have := ih h; omega

/-- The displayed data is the insight's record set further filtered by
the closeMonth dimension. -/
theorem filteredData_eq_insight_filter (f : FilterState) (d : List SalesRecord) :
    filteredData f d = (filteredForInsight f d).filter
      (fun r => dimOk f.closeMonth (getMonthFromDate r.closeDate)) := by
  unfold filteredData filteredForInsight
  rw [List.filter_filter]
  apply List.filter_congr
  intro r _
  cases dimOk f.region r.region <;> cases dimOk f.product r.product <;>
    cases dimOk f.quarter r.quarter <;> cases dimOk f.status r.status <;>
    cases dimOk f.rep r.rep <;>
    cases dimOk f.closeMonth (getMonthFromDate r.closeDate) <;> rfl

/-- C10 (implicit): the insight's aggregates ignore an active
closeMonth dimension, so whenever closeMonth is active and excludes at
least one record (all revenues being positive, as every generated
record's are), the insight's record count and revenue strictly exceed
those of the displayed filtered data, while its label still lists the
closeMonth pair among the active dimensions. -/
theorem c10_insight_ignores_closeMonth (d : List SalesRecord) (f : FilterState)
    (m : String)
    (hpos : ∀ r ∈ d, 0 < r.revenue)
    (hm : f.closeMonth = some m) (hm0 : m ≠ "")
    (hex : ∃ r ∈ filteredForInsight f d, getMonthFromDate r.closeDate ≠ m) :
    ∃ ins : InsightData, computeInsight f d = some ins ∧
      (filteredData f d).length < ins.records ∧
      sumRevenue (filteredData f d) < ins.revenue ∧
      ("closeMonth", m) ∈ ins.labels := by
  obtain ⟨r, hr, hrm⟩ := hex
  have hmem : ("closeMonth", m) ∈ f.activeList := by
    unfold FilterState.activeList
    refine List.mem_append_right _ ?_
    rw [hm]
    show ("closeMonth", m) ∈ (if m = "" then [] else [("closeMonth", m)])
    rw [if_neg hm0]
    exact List.mem_singleton.mpr rfl
  have hne : f.activeList ≠ [] := List.ne_nil_of_mem hmem
  have hp : dimOk f.closeMonth (getMonthFromDate r.closeDate) = false := by
    rw [hm]
    show (if m = "" then true else getMonthFromDate r.closeDate == m) = false
    rw [if_neg hm0]
    exact beq_eq_false_iff_ne.mpr hrm
  refine ⟨_, by unfold computeInsight; rw [if_neg hne], ?_, ?_, hmem⟩
  · show (filteredData f d).length < (filteredForInsight f d).length
    rw [filteredData_eq_insight_filter]
    exact List.length_filter_lt_length_iff_exists.mpr ⟨r, hr, by simp [hp]⟩
  · show sumRevenue (filteredData f d) < sumRevenue (filteredForInsight f d)
    rw [filteredData_eq_insight_filter]
    set p : SalesRecord → Bool :=
      fun x => dimOk f.closeMonth (getMonthFromDate x.closeDate) with hpdef
    have hsum := sumRevenue_filter_add p (filteredForInsight f d)
    have hrex : r ∈ (filteredForInsight f d).filter (fun x => !(p x)) :=
      List.mem_filter.mpr ⟨hr, by simp [hpdef, hp]⟩
    have hrpos : 0 < r.revenue :=
      hpos r (List.mem_of_mem_filter hr)
    have := le_sumRevenue_of_mem hrex
    omega

/-- Witness for C10: with an active closeMonth of January over the
two-record demo data, the insight covers both records (revenue 150)
while the displayed data has one (revenue 100). -/
theorem c10_insight_ignores_closeMonth_witness :
    ∃ ins : InsightData, computeInsight monthDemoFilter monthDemoData = some ins ∧
      (filteredData monthDemoFilter monthDemoData).length < ins.records ∧
      sumRevenue (filteredData monthDemoFilter monthDemoData) < ins.revenue ∧
      ("closeMonth", "January") ∈ ins.labels :=
  c10_insight_ignores_closeMonth monthDemoData monthDemoFilter "January"
    (by decide) rfl (by decide)
    ⟨⟨2, "US-East", "P", "Q1", 50, 100, "Good", 1, "A", "2026-02-10"⟩,
      by decide, by decide⟩

/-- Witness for C9: with item2 missing the comparison slot stays empty;
with all three fields present the request is created. -/
theorem c9_compare_action_witness :
    (step [] initState (.agent (.compare (some "US-East") none (some "region")))).comparison
      = initState.comparison ∧
    (step [] initState (.agent (.compare (some "US-East") (some "US-West") (some "region")))).comparison
      = some ⟨"US-East", "US-West", "region"⟩ :=
  ⟨((c9_compare_action [] initState (some "US-East") none (some "region")).2.2.2.1
      (Or.inr (Or.inl rfl))),
   ((c9_compare_action [] initState (some "US-East") (some "US-West") (some "region")).2.2.2.2
      (by decide) (by decide) (by decide))⟩

end ExecDeck
